import Mathlib

/-!
Shallow embedding of the DCA (dollar-cost averaging) simulator `app.py`:
the price-series normalizer (`load_series`), the monthly execution-date
resolution loop, and the accounting recurrence over execution dates.
Prices are modelled as rationals, calendar dates as (year, month, day)
triples ordered lexicographically.
-/

namespace DCA

/-- A calendar date, ordered lexicographically by (year, month, day).
Models the normalized `pd.Timestamp` index of the price DataFrame. -/
structure Date where
  year : Nat
  month : Nat
  day : Nat
deriving DecidableEq, Repr

/-- Boolean strict lexicographic order on dates, mirroring timestamp order. -/
def Date.ltb (a b : Date) : Bool :=
  Nat.blt a.year b.year ||
    (Nat.beq a.year b.year &&
      (Nat.blt a.month b.month ||
        (Nat.beq a.month b.month && Nat.blt a.day b.day)))

/-- Boolean non-strict lexicographic order on dates. -/
def Date.leb (a b : Date) : Bool :=
  Nat.blt a.year b.year ||
    (Nat.beq a.year b.year &&
      (Nat.blt a.month b.month ||
        (Nat.beq a.month b.month && Nat.ble a.day b.day)))

instance : LT Date := ⟨fun a b => Date.ltb a b = true⟩

instance : LE Date := ⟨fun a b => Date.leb a b = true⟩

instance (a b : Date) : Decidable (a < b) :=
  inferInstanceAs (Decidable (Date.ltb a b = true))

instance (a b : Date) : Decidable (a ≤ b) :=
  inferInstanceAs (Decidable (Date.leb a b = true))

theorem Date.lt_iff {a b : Date} :
    a < b ↔ (a.year < b.year ∨ (a.year = b.year ∧
      (a.month < b.month ∨ (a.month = b.month ∧ a.day < b.day)))) := by
  show Date.ltb a b = true ↔ _
  simp [Date.ltb, Nat.blt_eq, Nat.beq_eq, Nat.ble_eq, Bool.or_eq_true,
    Bool.and_eq_true]

theorem Date.le_iff {a b : Date} :
    a ≤ b ↔ (a.year < b.year ∨ (a.year = b.year ∧
      (a.month < b.month ∨ (a.month = b.month ∧ a.day ≤ b.day)))) := by
  show Date.leb a b = true ↔ _
  simp [Date.leb, Nat.blt_eq, Nat.beq_eq, Nat.ble_eq, Bool.or_eq_true,
    Bool.and_eq_true]

theorem Date.eq_iff {a b : Date} :
    a = b ↔ (a.year = b.year ∧ a.month = b.month ∧ a.day = b.day) := by
  cases a; cases b; simp [Date.mk.injEq]

theorem Date.lt_trans {a b c : Date} (h1 : a < b) (h2 : b < c) : a < c := by
  rw [Date.lt_iff] at h1 h2 ⊢; omega

theorem Date.lt_irrefl (a : Date) : ¬ a < a := by
  rw [Date.lt_iff]; omega

theorem Date.le_refl (a : Date) : a ≤ a := by
  rw [Date.le_iff]; omega

theorem Date.le_of_lt {a b : Date} (h : a < b) : a ≤ b := by
  rw [Date.lt_iff] at h; rw [Date.le_iff]; omega

theorem Date.le_total (a b : Date) : a ≤ b ∨ b ≤ a := by
  rw [Date.le_iff, Date.le_iff]; omega

theorem Date.lt_of_le_of_lt {a b c : Date} (h1 : a ≤ b) (h2 : b < c) : a < c := by
  rw [Date.le_iff] at h1; rw [Date.lt_iff] at h2 ⊢; omega

theorem Date.lt_of_lt_of_le {a b c : Date} (h1 : a < b) (h2 : b ≤ c) : a < c := by
  rw [Date.lt_iff] at h1; rw [Date.le_iff] at h2; rw [Date.lt_iff]; omega

theorem Date.le_antisymm {a b : Date} (h1 : a ≤ b) (h2 : b ≤ a) : a = b := by
  rw [Date.le_iff] at h1 h2; rw [Date.eq_iff]; omega

theorem Date.lt_or_eq_of_le {a b : Date} (h : a ≤ b) : a < b ∨ a = b := by
  rw [Date.le_iff] at h; rw [Date.lt_iff, Date.eq_iff]; omega

theorem Date.not_lt_of_le {a b : Date} (h : a ≤ b) : ¬ b < a := by
  rw [Date.le_iff] at h; rw [Date.lt_iff]; omega

theorem Date.not_le_iff_lt {a b : Date} : ¬ a ≤ b ↔ b < a := by
  rw [Date.le_iff, Date.lt_iff]; omega

/-- Insert a date into a strictly-sorted list, skipping duplicates. -/
def insertSorted (d : Date) : List Date → List Date
  | [] => [d]
  | x :: xs =>
    if d < x then d :: x :: xs
    else if d = x then x :: xs
    else x :: insertSorted d xs

/-- Sort a list of dates ascending and drop duplicates: the model of
`sorted(pd.unique(...))`. -/
def dedupSort (l : List Date) : List Date :=
  l.foldr insertSorted []

theorem mem_insertSorted {d e : Date} {l : List Date} :
    e ∈ insertSorted d l ↔ e = d ∨ e ∈ l := by
  induction l with
  | nil => simp [insertSorted]
  | cons x xs ih =>
    by_cases h1 : d < x
    · rw [insertSorted, if_pos h1]
      simp only [List.mem_cons]
    · by_cases h2 : d = x
      · rw [insertSorted, if_neg h1, if_pos h2]
        subst h2
        simp only [List.mem_cons]
        tauto
      · rw [insertSorted, if_neg h1, if_neg h2]
        simp only [List.mem_cons, ih]
        tauto

theorem pairwise_insertSorted {d : Date} {l : List Date}
    (h : List.Pairwise (fun a b : Date => a < b) l) :
    List.Pairwise (fun a b : Date => a < b) (insertSorted d l) := by
  induction l with
  | nil => simp [insertSorted]
  | cons x xs ih =>
    rcases List.pairwise_cons.mp h with ⟨hx, hxs⟩
    by_cases h1 : d < x
    · rw [insertSorted, if_pos h1]
      refine List.pairwise_cons.mpr ⟨?_, h⟩
      intro e he
      rcases List.mem_cons.mp he with rfl | he
      · exact h1
      · exact Date.lt_trans h1 (hx e he)
    · by_cases h2 : d = x
      · rw [insertSorted, if_neg h1, if_pos h2]
        exact h
      · rw [insertSorted, if_neg h1, if_neg h2]
        have hxd : x < d := by
          rcases Date.le_total d x with h3 | h3
          · rcases Date.lt_or_eq_of_le h3 with h4 | h4
            · exact absurd h4 h1
            · exact absurd h4 h2
          · rcases Date.lt_or_eq_of_le h3 with h4 | h4
            · exact h4
            · exact absurd h4.symm h2
        refine List.pairwise_cons.mpr ⟨?_, ih hxs⟩
        intro e he
        rcases mem_insertSorted.mp he with rfl | he
        · exact hxd
        · exact hx e he

theorem mem_dedupSort {d : Date} {l : List Date} :
    d ∈ dedupSort l ↔ d ∈ l := by
  induction l with
  | nil => simp [dedupSort]
  | cons x xs ih =>
    simp only [dedupSort, List.foldr_cons]
    rw [mem_insertSorted]
    simp only [dedupSort] at ih
    rw [ih]
    simp

theorem pairwise_dedupSort (l : List Date) :
    List.Pairwise (fun a b : Date => a < b) (dedupSort l) := by
  induction l with
  | nil => simp [dedupSort]
  | cons x xs ih =>
    simp only [dedupSort, List.foldr_cons]
    exact pairwise_insertSorted ih

/-- Gregorian leap-year test, as used by the timestamp library. -/
def isLeap (y : Nat) : Bool :=
  y % 4 == 0 && (y % 100 != 0 || y % 400 == 0)

/-- Number of days in a calendar month: the model of
`month_start + pd.offsets.MonthEnd(0)`. -/
def daysInMonth (y m : Nat) : Nat :=
  if m = 2 then (if isLeap y then 29 else 28)
  else if m = 4 ∨ m = 6 ∨ m = 9 ∨ m = 11 then 30
  else 31

/-- A price series: the DataFrame rows (date, btc_brl price), kept in
index order. The PriceSeries invariant is strict ascent of the dates. -/
def PriceSeries : Type := List (Date × Rat)

/-- The PriceSeries ordering invariant: strictly increasing dates. -/
def SortedSeries (px : List (Date × Rat)) : Prop :=
  List.Pairwise (fun p q : Date × Rat => p.1 < q.1) px

/-- Execution-date resolution for one month of the schedule, translated
from the loop body over `months`: try `target` = day `min(dia_d, 28)`;
else the first series date in `[target, month_end]`; else the last series
date in `[month_start, month_end]`; else skip the month. -/
def resolveMonth (px : List (Date × Rat)) (diaD y m : Nat) : Option Date :=
  let target : Date := ⟨y, m, min diaD 28⟩
  let monthStart : Date := ⟨y, m, 1⟩
  let monthEnd : Date := ⟨y, m, daysInMonth y m⟩
  if target ∈ px.map Prod.fst then some target
  else
    match (px.filter fun p => Date.leb target p.1 && Date.leb p.1 monthEnd).head? with
    | some p => some p.1
    | none =>
      match (px.filter fun p => Date.leb monthStart p.1 && Date.leb p.1 monthEnd).getLast? with
      | some p => some p.1
      | none => none

/-- The calendar months from (y1, m1) to (y2, m2) inclusive: the model of
`pd.period_range(start, end, freq=M)`. -/
def monthsRange (y1 m1 y2 m2 : Nat) : List (Nat × Nat) :=
  let a := y1 * 12 + (m1 - 1)
  let b := y2 * 12 + (m2 - 1)
  if a ≤ b then
    (List.range (b - a + 1)).map fun i => ((a + i) / 12, (a + i) % 12 + 1)
  else []

/-- The deduplicated, ascending execution dates:
`exec_dates = sorted(pd.unique(exec_dates))` after the resolution loop. -/
def execDates (px : List (Date × Rat)) (diaD y1 m1 y2 m2 : Nat) : List Date :=
  dedupSort ((monthsRange y1 m1 y2 m2).filterMap
    fun ym => resolveMonth px diaD ym.1 ym.2)

/-- One row of the simulation DataFrame `dca`. Field names follow the
script's variables; `pm` is `none` where the script stores `np.nan`. -/
structure Event where
  data : Date
  precoBrl : Rat
  aporte : Rat
  qtyBtc : Rat
  btcCum : Rat
  brlInvestido : Rat
  valBrl : Rat
  pnl : Rat
  roi : Rat
  pm : Option Rat
deriving DecidableEq, Repr

/-- Price lookup `px.loc[dt, btc_brl]`: `none` models the KeyError a
lookup of an absent date would raise. -/
def lookupPrice (px : List (Date × Rat)) (d : Date) : Option Rat :=
  (px.find? fun p => decide (p.1 = d)).map Prod.snd

/-- `qty_btc` of one loop iteration: `aporte / price` on the buy branch,
`0.0` on the degenerate branch. -/
def stepQty (a price : Rat) : Rat :=
  if 0 < a ∧ 0 < price then a / price else 0

/-- `btc_cum` after one loop iteration. -/
def stepBtcCum (a price c : Rat) : Rat :=
  if 0 < a ∧ 0 < price then c + a / price else c

/-- `brl_investido` after one loop iteration. -/
def stepBrlInv (a price b : Rat) : Rat :=
  if 0 < a ∧ 0 < price then b + a else b

/-- `pm` (average cost) of one loop iteration: the updated ratio on the
buy branch, the carried ratio — or `np.nan`, modelled `none` — otherwise. -/
def stepPm (a price c b : Rat) : Option Rat :=
  if 0 < a ∧ 0 < price then
    some (stepBrlInv a price b / stepBtcCum a price c)
  else if 0 < c then some (b / c) else none

/-- The row the loop body appends to `records`, given the totals carried
into the iteration. On both branches `val_brl`, `pnl` and `roi` are
computed from the just-updated totals, so they are written uniformly. -/
def stepEvent (a : Rat) (dt : Date) (price : Rat) (c b : Rat) : Event :=
  let c2 := stepBtcCum a price c
  let b2 := stepBrlInv a price b
  let valBrl := c2 * price
  let pnl := valBrl - b2
  let roi := if 0 < b2 then pnl / b2 * 100 else 0
  Event.mk dt price a (stepQty a price) c2 b2 valBrl pnl roi (stepPm a price c b)

/-- The DCA accounting recurrence over the execution dates, carrying the
running totals `btc_cum` and `brl_investido`. -/
def simAux (px : List (Date × Rat)) (a : Rat) :
    List Date → Rat → Rat → Option (List Event)
  | [], _, _ => some []
  | dt :: rest, c, b =>
    match lookupPrice px dt with
    | none => none
    | some price =>
      (simAux px a rest (stepBtcCum a price c) (stepBrlInv a price b)).map
        (fun evs => stepEvent a dt price c b :: evs)

/-- The full simulation: resolve execution dates, run the recurrence from
zero totals, and, when the ledger came out empty, substitute the single
synthetic as-of row built from the last series entry. `none` models a
raised exception (absent price, or empty series at the fallback). -/
def simulate (px : List (Date × Rat)) (diaD : Nat) (aporteMensal : Rat)
    (y1 m1 y2 m2 : Nat) : Option (List Event) :=
  match simAux px aporteMensal (execDates px diaD y1 m1 y2 m2) 0 0 with
  | none => none
  | some [] =>
    match px.getLast? with
    | none => none
    | some p => some [Event.mk p.1 p.2 0 0 0 0 0 0 0 none]
  | some evs => some evs

/-- Earliest date of a list under the lexicographic order. Used only to
state the spec's resolution policy; not part of the code model. -/
def minDateOf : List Date → Option Date
  | [] => none
  | d :: rest =>
    match minDateOf rest with
    | none => some d
    | some e => some (if Date.leb d e then d else e)

/-- Latest date of a list under the lexicographic order. Used only to
state the spec's resolution policy; not part of the code model. -/
def maxDateOf : List Date → Option Date
  | [] => none
  | d :: rest =>
    match maxDateOf rest with
    | none => some d
    | some e => some (if Date.leb d e then e else d)

/-- The execution-date policy exactly as the spec words it, over the set
of series dates: target day if quoted; else the first quoted date in
[target, month end]; else the latest quoted date in the month; else none. -/
def specResolve (dates : List Date) (diaD y m : Nat) : Option Date :=
  let target : Date := ⟨y, m, min diaD 28⟩
  let monthStart : Date := ⟨y, m, 1⟩
  let monthEnd : Date := ⟨y, m, daysInMonth y m⟩
  if target ∈ dates then some target
  else
    match minDateOf (dates.filter fun d => Date.leb target d && Date.leb d monthEnd) with
    | some d => some d
    | none => maxDateOf (dates.filter fun d => Date.leb monthStart d && Date.leb d monthEnd)

/-- Most recent value of a raw series at or before a date: the value a
per-column `ffill` leaves at that date after the outer join. For a
date-sorted series this is the entry with the largest date `≤ d`. -/
def lastAtOrBefore : List (Date × Rat) → Date → Option Rat
  | [], _ => none
  | p :: rest, d =>
    if Date.leb p.1 d then
      match lastAtOrBefore rest d with
      | some v => some v
      | none => some p.2
    else lastAtOrBefore rest d

/-- The outer-join index of two series: sorted union of their dates,
as produced by `pd.concat([...], axis=1).sort_index()`. -/
def unionDates (sa sb : List (Date × Rat)) : List Date :=
  dedupSort (sa.map Prod.fst ++ sb.map Prod.fst)

/-- The composite `btc_brl` series: join the two inputs on the union of
dates, forward-fill each column, multiply, and drop dates where either
column is still undefined (`dropna(subset=[btc_brl])`). -/
def composite (sa sb : List (Date × Rat)) : List (Date × Rat) :=
  (unionDates sa sb).filterMap fun d =>
    match lastAtOrBefore sa d, lastAtOrBefore sb d with
    | some x, some y => some (d, x * y)
    | _, _ => none

/-- Errors of the normalizer: `RuntimeError` for an unusable raw input
and for an empty composite series. -/
inductive NormError where
  | dataUnavailable : NormError
  | emptyResult : NormError
deriving DecidableEq, Repr

/-- A raw download result: an emptiness flag and the two optional price
columns, each a list of dated, possibly-NaN values. -/
structure RawFrame where
  isEmpty : Bool
  adjClose : Option (List (Date × Option Rat))
  close : Option (List (Date × Option Rat))

/-- Insert one dated value into a list sorted ascending by date. -/
def insertPair (p : Date × Rat) : List (Date × Rat) → List (Date × Rat)
  | [] => [p]
  | q :: rest =>
    if Date.leb p.1 q.1 then p :: q :: rest else q :: insertPair p rest

/-- Sort a series ascending by date: the model of `sort_index()`. -/
def sortByDate (l : List (Date × Rat)) : List (Date × Rat) :=
  l.foldr insertPair []

/-- `s.sort_index().dropna()`: drop NaN entries and sort by date. -/
def cleanSeries (col : List (Date × Option Rat)) : List (Date × Rat) :=
  sortByDate (col.filterMap fun p => p.2.map fun v => (p.1, v))

/-- `_download_single`: fail on an empty frame, select `Adj Close` when
the column exists, else `Close`, else fail; then sort and drop NaN. -/
def downloadSingle (r : RawFrame) : Except NormError (List (Date × Rat)) :=
  if r.isEmpty then Except.error NormError.dataUnavailable
  else
    match r.adjClose with
    | some col => Except.ok (cleanSeries col)
    | none =>
      match r.close with
      | some col => Except.ok (cleanSeries col)
      | none => Except.error NormError.dataUnavailable

/-- `load_series`: download both instruments, build the composite series,
and fail when it has no rows. -/
def loadSeries (ra rb : RawFrame) : Except NormError (List (Date × Rat)) :=
  match downloadSingle ra with
  | Except.error e => Except.error e
  | Except.ok sa =>
    match downloadSingle rb with
    | Except.error e => Except.error e
    | Except.ok sb =>
      let comp := composite sa sb
      if comp.isEmpty then Except.error NormError.emptyResult
      else Except.ok comp

/-- The whole script pipeline: a failed `load_series` aborts the run, so
the simulation produces a ledger only on the ok branch. -/
def pipeline (ra rb : RawFrame) (diaD : Nat) (aporteMensal : Rat)
    (y1 m1 y2 m2 : Nat) : Except NormError (Option (List Event)) :=
  match loadSeries ra rb with
  | Except.error e => Except.error e
  | Except.ok px => Except.ok (simulate px diaD aporteMensal y1 m1 y2 m2)

theorem stepEvent_data (a : Rat) (dt : Date) (price c b : Rat) :
    (stepEvent a dt price c b).data = dt := rfl

theorem stepEvent_qty (a : Rat) (dt : Date) (price c b : Rat) :
    (stepEvent a dt price c b).qtyBtc = stepQty a price := rfl

theorem stepEvent_btcCum (a : Rat) (dt : Date) (price c b : Rat) :
    (stepEvent a dt price c b).btcCum = stepBtcCum a price c := rfl

theorem stepEvent_brlInv (a : Rat) (dt : Date) (price c b : Rat) :
    (stepEvent a dt price c b).brlInvestido = stepBrlInv a price b := rfl

theorem stepEvent_aporte (a : Rat) (dt : Date) (price c b : Rat) :
    (stepEvent a dt price c b).aporte = a := rfl

theorem simAux_nil (px : List (Date × Rat)) (a c b : Rat) :
    simAux px a [] c b = some [] := rfl

theorem simAux_cons (px : List (Date × Rat)) (a : Rat) (dt : Date)
    (rest : List Date) (c b : Rat) :
    simAux px a (dt :: rest) c b =
      match lookupPrice px dt with
      | none => none
      | some price =>
        (simAux px a rest (stepBtcCum a price c) (stepBrlInv a price b)).map
          (fun evs => stepEvent a dt price c b :: evs) := rfl

theorem simAux_cons_none {px : List (Date × Rat)} {a : Rat} {dt : Date}
    {rest : List Date} {c b : Rat} (hp : lookupPrice px dt = none) :
    simAux px a (dt :: rest) c b = none := by
  rw [simAux_cons, hp]

theorem simAux_cons_some {px : List (Date × Rat)} {a : Rat} {dt : Date}
    {rest : List Date} {c b price : Rat} (hp : lookupPrice px dt = some price) :
    simAux px a (dt :: rest) c b =
      (simAux px a rest (stepBtcCum a price c) (stepBrlInv a price b)).map
        (fun evs => stepEvent a dt price c b :: evs) := by
  rw [simAux_cons, hp]

theorem lookupPrice_eq_some {px : List (Date × Rat)} {d : Date} {v : Rat}
    (h : lookupPrice px d = some v) : (d, v) ∈ px := by
  unfold lookupPrice at h
  cases hf : px.find? fun p => decide (p.1 = d) with
  | none => rw [hf] at h; cases h
  | some q =>
    rw [hf] at h
    have hq1 : q.1 = d := by simpa using List.find?_some hf
    have hq2 : q ∈ px := List.mem_of_find?_eq_some hf
    have hq3 : q.2 = v := by simpa using h
    have : q = (d, v) := Prod.ext hq1 hq3
    rw [this] at hq2
    exact hq2

theorem lookupPrice_isSome_of_mem {px : List (Date × Rat)} {p : Date × Rat}
    (hp : p ∈ px) : ∃ v, lookupPrice px p.1 = some v := by
  have h1 : (px.find? fun q => decide (q.1 = p.1)).isSome = true := by
    rw [List.find?_isSome]
    exact ⟨p, hp, by simp⟩
  rcases Option.isSome_iff_exists.mp h1 with ⟨q, hq⟩
  refine ⟨q.2, ?_⟩
  unfold lookupPrice
  rw [hq]
  rfl

theorem simAux_map_data {px : List (Date × Rat)} {a : Rat} :
    ∀ {ds : List Date} {c b : Rat} {l : List Event},
      simAux px a ds c b = some l → l.map Event.data = ds := by
  intro ds
  induction ds with
  | nil =>
    intro c b l h
    rw [simAux_nil] at h
    injection h with h2
    subst h2
    rfl
  | cons dt rest ih =>
    intro c b l h
    cases hp : lookupPrice px dt with
    | none => rw [simAux_cons_none hp] at h; cases h
    | some price =>
      rw [simAux_cons_some hp] at h
      cases hrec : simAux px a rest (stepBtcCum a price c) (stepBrlInv a price b) with
      | none => rw [hrec] at h; cases h
      | some l2 =>
        rw [hrec, Option.map_some'] at h
        injection h with h2
        subst h2
        rw [List.map_cons, stepEvent_data, ih hrec]

theorem simAux_total {px : List (Date × Rat)} {a : Rat} :
    ∀ {ds : List Date} (c b : Rat), (∀ d ∈ ds, ∃ p ∈ px, p.1 = d) →
      ∃ l, simAux px a ds c b = some l := by
  intro ds
  induction ds with
  | nil =>
    intro c b _
    exact ⟨[], simAux_nil px a c b⟩
  | cons dt rest ih =>
    intro c b hmem
    rcases hmem dt (List.mem_cons_self dt rest) with ⟨p, hp, hpd⟩
    rcases lookupPrice_isSome_of_mem hp with ⟨v, hv⟩
    rw [hpd] at hv
    rcases ih (stepBtcCum a v c) (stepBrlInv a v b)
      (fun d hd => hmem d (List.mem_cons_of_mem dt hd)) with ⟨l2, hl2⟩
    refine ⟨stepEvent a dt v c b :: l2, ?_⟩
    rw [simAux_cons_some hv, hl2, Option.map_some']

theorem simAux_ne_nil {px : List (Date × Rat)} {a : Rat} {dt : Date}
    {rest : List Date} {c b : Rat} {l : List Event}
    (h : simAux px a (dt :: rest) c b = some l) : l ≠ [] := by
  intro hnil
  subst hnil
  have := simAux_map_data h
  simp at this

theorem simAux_cumulative {px : List (Date × Rat)} {a : Rat}
    (hpos : ∀ p ∈ px, 0 < p.2) (ha : 0 ≤ a) :
    ∀ {ds : List Date} {c b : Rat} {l : List Event},
      simAux px a ds c b = some l →
      ∀ i (hi : i < l.length),
        (l.get ⟨i, hi⟩).btcCum = c + ((l.take (i+1)).map Event.qtyBtc).sum ∧
        (l.get ⟨i, hi⟩).brlInvestido = b + ((l.take (i+1)).map Event.aporte).sum := by
  intro ds
  induction ds with
  | nil =>
    intro c b l h i hi
    rw [simAux_nil] at h
    injection h with h2
    subst h2
    exact absurd hi (by simp)
  | cons dt rest ih =>
    intro c b l h i hi
    cases hp : lookupPrice px dt with
    | none => rw [simAux_cons_none hp] at h; cases h
    | some price =>
      rw [simAux_cons_some hp] at h
      cases hrec : simAux px a rest (stepBtcCum a price c) (stepBrlInv a price b) with
      | none => rw [hrec] at h; cases h
      | some l2 =>
        rw [hrec, Option.map_some'] at h
        injection h with h2
        subst h2
        have hprice : 0 < price := hpos _ (lookupPrice_eq_some hp)
        have hcum : stepBtcCum a price c = c + stepQty a price := by
          unfold stepBtcCum stepQty
          split
          · rfl
          · rw [add_zero]
        have hinv : stepBrlInv a price b = b + a := by
          unfold stepBrlInv
          split
          · rfl
          · next hcond =>
            have h3 : ¬ 0 < a := fun hh => hcond ⟨hh, hprice⟩
            have h4 : a = 0 := le_antisymm (not_lt.mp h3) ha
            rw [h4, add_zero]
        cases i with
        | zero =>
          refine ⟨?_, ?_⟩
          · show (stepEvent a dt price c b).btcCum = c + _
            rw [List.take_succ_cons, List.take_zero, List.map_cons, List.map_nil,
              List.sum_cons, List.sum_nil, add_zero, stepEvent_btcCum,
              stepEvent_qty, hcum]
          · show (stepEvent a dt price c b).brlInvestido = b + _
            rw [List.take_succ_cons, List.take_zero, List.map_cons, List.map_nil,
              List.sum_cons, List.sum_nil, add_zero, stepEvent_brlInv,
              stepEvent_aporte, hinv]
        | succ j =>
          have hj : j < l2.length := by simpa using hi
          rcases ih hrec j hj with ⟨ih1, ih2⟩
          refine ⟨?_, ?_⟩
          · show (l2.get ⟨j, hj⟩).btcCum = c + _
            rw [List.take_succ_cons, List.map_cons, List.sum_cons, ih1, hcum,
              stepEvent_qty, add_assoc]
          · show (l2.get ⟨j, hj⟩).brlInvestido = b + _
            rw [List.take_succ_cons, List.map_cons, List.sum_cons, ih2, hinv,
              stepEvent_aporte, add_assoc]

theorem simAux_zero {px : List (Date × Rat)} :
    ∀ {ds : List Date} {l : List Event},
      simAux px 0 ds 0 0 = some l →
      ∀ e ∈ l, e.qtyBtc = 0 ∧ e.btcCum = 0 ∧ e.pnl = 0 ∧ e.roi = 0 := by
  intro ds
  induction ds with
  | nil =>
    intro l h e he
    rw [simAux_nil] at h
    injection h with h2
    subst h2
    cases he
  | cons dt rest ih =>
    intro l h e he
    cases hp : lookupPrice px dt with
    | none => rw [simAux_cons_none hp] at h; cases h
    | some price =>
      rw [simAux_cons_some hp] at h
      have hc : stepBtcCum 0 price 0 = 0 := by
        unfold stepBtcCum
        rw [if_neg]
        simp
      have hb : stepBrlInv 0 price 0 = 0 := by
        unfold stepBrlInv
        rw [if_neg]
        simp
      rw [hc, hb] at h
      cases hrec : simAux px 0 rest 0 0 with
      | none => rw [hrec] at h; cases h
      | some l2 =>
        rw [hrec, Option.map_some'] at h
        injection h with h2
        subst h2
        rcases List.mem_cons.mp he with rfl | he2
        · refine ⟨?_, ?_, ?_, ?_⟩ <;>
            simp [stepEvent, stepQty, stepBtcCum, stepBrlInv]
        · exact ih hrec e he2

theorem simAux_chain {px : List (Date × Rat)} {a : Rat} :
    ∀ {ds : List Date} {c b : Rat} {l : List Event},
      simAux px a ds c b = some l →
      List.Chain' (fun e1 e2 =>
        e1.btcCum ≤ e2.btcCum ∧ e1.brlInvestido ≤ e2.brlInvestido) l ∧
      ∀ e ∈ l.head?, c ≤ e.btcCum ∧ b ≤ e.brlInvestido := by
  intro ds
  induction ds with
  | nil =>
    intro c b l h
    rw [simAux_nil] at h
    injection h with h2
    subst h2
    exact ⟨List.chain'_nil, by simp⟩
  | cons dt rest ih =>
    intro c b l h
    cases hp : lookupPrice px dt with
    | none => rw [simAux_cons_none hp] at h; cases h
    | some price =>
      rw [simAux_cons_some hp] at h
      cases hrec : simAux px a rest (stepBtcCum a price c) (stepBrlInv a price b) with
      | none => rw [hrec] at h; cases h
      | some l2 =>
        rw [hrec, Option.map_some'] at h
        injection h with h2
        subst h2
        rcases ih hrec with ⟨hchain, hhead⟩
        have hcle : c ≤ stepBtcCum a price c := by
          unfold stepBtcCum
          split
          · next hcond => exact le_add_of_nonneg_right (div_pos hcond.1 hcond.2).le
          · exact le_refl c
        have hble : b ≤ stepBrlInv a price b := by
          unfold stepBrlInv
          split
          · next hcond => exact le_add_of_nonneg_right hcond.1.le
          · exact le_refl b
        constructor
        · rw [List.chain'_cons']
          refine ⟨?_, hchain⟩
          intro y hy
          rcases hhead y hy with ⟨hy1, hy2⟩
          exact ⟨le_trans (by rw [stepEvent_btcCum]) hy1,
            le_trans (by rw [stepEvent_brlInv]) hy2⟩
        · intro e he
          simp only [List.head?_cons, Option.mem_def, Option.some.injEq] at he
          subst he
          rw [stepEvent_btcCum, stepEvent_brlInv]
          exact ⟨hcle, hble⟩

theorem simulate_cases {px : List (Date × Rat)} {diaD : Nat} {a : Rat}
    {y1 m1 y2 m2 : Nat} {l : List Event}
    (h : simulate px diaD a y1 m1 y2 m2 = some l) :
    (simAux px a (execDates px diaD y1 m1 y2 m2) 0 0 = some l ∧ l ≠ []) ∨
    (simAux px a (execDates px diaD y1 m1 y2 m2) 0 0 = some [] ∧
      ∃ p, px.getLast? = some p ∧ l = [Event.mk p.1 p.2 0 0 0 0 0 0 0 none]) := by
  unfold simulate at h
  cases hs : simAux px a (execDates px diaD y1 m1 y2 m2) 0 0 with
  | none => rw [hs] at h; cases h
  | some l0 =>
    rw [hs] at h
    cases l0 with
    | nil =>
      cases hg : px.getLast? with
      | none => rw [hg] at h; cases h
      | some p =>
        rw [hg] at h
        injection h with h2
        exact Or.inr ⟨rfl, p, rfl, h2.symm⟩
    | cons e rest =>
      injection h with h2
      subst h2
      exact Or.inl ⟨rfl, by simp⟩

theorem resolveMonth_def (px : List (Date × Rat)) (diaD y m : Nat) :
    resolveMonth px diaD y m =
      (if (⟨y, m, min diaD 28⟩ : Date) ∈ px.map Prod.fst then
        some ⟨y, m, min diaD 28⟩
      else
        match (px.filter fun p => Date.leb ⟨y, m, min diaD 28⟩ p.1 &&
            Date.leb p.1 ⟨y, m, daysInMonth y m⟩).head? with
        | some p => some p.1
        | none =>
          match (px.filter fun p => Date.leb ⟨y, m, 1⟩ p.1 &&
              Date.leb p.1 ⟨y, m, daysInMonth y m⟩).getLast? with
          | some p => some p.1
          | none => none) := rfl

theorem specResolve_def (dates : List Date) (diaD y m : Nat) :
    specResolve dates diaD y m =
      (if (⟨y, m, min diaD 28⟩ : Date) ∈ dates then
        some ⟨y, m, min diaD 28⟩
      else
        match minDateOf (dates.filter fun d => Date.leb ⟨y, m, min diaD 28⟩ d &&
            Date.leb d ⟨y, m, daysInMonth y m⟩) with
        | some d => some d
        | none =>
          maxDateOf (dates.filter fun d => Date.leb ⟨y, m, 1⟩ d &&
            Date.leb d ⟨y, m, daysInMonth y m⟩)) := rfl

theorem Date.between_month {y m t e : Nat} {d : Date}
    (h1 : (Date.mk y m t) ≤ d) (h2 : d ≤ Date.mk y m e) :
    d.year = y ∧ d.month = m := by
  rw [Date.le_iff] at h1 h2
  simp only at h1 h2
  omega

theorem getLast?_mem {α : Type} {l : List α} {a : α} (h : l.getLast? = some a) :
    a ∈ l := by
  rcases List.getLast?_eq_some_iff.mp h with ⟨ys, hys⟩
  subst hys
  simp

/-- The date a month resolves to lies in that month and carries a price. -/
theorem resolveMonth_props {px : List (Date × Rat)} {diaD y m : Nat} {d : Date}
    (h : resolveMonth px diaD y m = some d) :
    (∃ p ∈ px, p.1 = d) ∧ d.year = y ∧ d.month = m := by
  rw [resolveMonth_def] at h
  by_cases hmem : (⟨y, m, min diaD 28⟩ : Date) ∈ px.map Prod.fst
  · rw [if_pos hmem] at h
    injection h with h2
    subst h2
    rcases List.mem_map.mp hmem with ⟨p, hp, hpd⟩
    exact ⟨⟨p, hp, hpd⟩, rfl, rfl⟩
  · rw [if_neg hmem] at h
    cases h1 : (px.filter fun p => Date.leb ⟨y, m, min diaD 28⟩ p.1 &&
        Date.leb p.1 ⟨y, m, daysInMonth y m⟩).head? with
    | some p =>
      rw [h1] at h
      injection h with h2
      subst h2
      have hpf : p ∈ px.filter fun p => Date.leb ⟨y, m, min diaD 28⟩ p.1 &&
          Date.leb p.1 ⟨y, m, daysInMonth y m⟩ :=
        List.mem_of_mem_head? (Option.mem_def.mpr h1)
      have hpred := List.of_mem_filter hpf
      rw [Bool.and_eq_true] at hpred
      refine ⟨⟨p, List.mem_of_mem_filter hpf, rfl⟩, ?_⟩
      exact Date.between_month hpred.1 hpred.2
    | none =>
      rw [h1] at h
      cases h2 : (px.filter fun p => Date.leb ⟨y, m, 1⟩ p.1 &&
          Date.leb p.1 ⟨y, m, daysInMonth y m⟩).getLast? with
      | some p =>
        rw [h2] at h
        injection h with h3
        subst h3
        have hpf : p ∈ px.filter fun p => Date.leb ⟨y, m, 1⟩ p.1 &&
            Date.leb p.1 ⟨y, m, daysInMonth y m⟩ := getLast?_mem h2
        have hpred := List.of_mem_filter hpf
        rw [Bool.and_eq_true] at hpred
        refine ⟨⟨p, List.mem_of_mem_filter hpf, rfl⟩, ?_⟩
        exact Date.between_month hpred.1 hpred.2
      | none =>
        rw [h2] at h
        cases h

theorem mem_execDates_iff {px : List (Date × Rat)} {diaD y1 m1 y2 m2 : Nat}
    {d : Date} :
    d ∈ execDates px diaD y1 m1 y2 m2 ↔
      ∃ ym ∈ monthsRange y1 m1 y2 m2, resolveMonth px diaD ym.1 ym.2 = some d := by
  unfold execDates
  rw [mem_dedupSort, List.mem_filterMap]

theorem execDates_mem_px {px : List (Date × Rat)} {diaD y1 m1 y2 m2 : Nat}
    {d : Date} (hd : d ∈ execDates px diaD y1 m1 y2 m2) :
    ∃ p ∈ px, p.1 = d := by
  rcases mem_execDates_iff.mp hd with ⟨ym, _, hres⟩
  exact (resolveMonth_props hres).1

theorem minDateOf_cons_none {d : Date} {rest : List Date}
    (h : minDateOf rest = none) : minDateOf (d :: rest) = some d := by
  rw [minDateOf, h]

theorem minDateOf_cons_some {d e : Date} {rest : List Date}
    (h : minDateOf rest = some e) :
    minDateOf (d :: rest) = some (if Date.leb d e then d else e) := by
  rw [minDateOf, h]

theorem maxDateOf_cons_none {d : Date} {rest : List Date}
    (h : maxDateOf rest = none) : maxDateOf (d :: rest) = some d := by
  rw [maxDateOf, h]

theorem maxDateOf_cons_some {d e : Date} {rest : List Date}
    (h : maxDateOf rest = some e) :
    maxDateOf (d :: rest) = some (if Date.leb d e then e else d) := by
  rw [maxDateOf, h]

theorem minDateOf_mem : ∀ {l : List Date} {e : Date}, minDateOf l = some e → e ∈ l := by
  intro l
  induction l with
  | nil => intro e h; cases h
  | cons d rest ih =>
    intro e h
    cases h1 : minDateOf rest with
    | none =>
      rw [minDateOf_cons_none h1] at h
      injection h with h2
      subst h2
      exact List.mem_cons_self d rest
    | some f =>
      rw [minDateOf_cons_some h1] at h
      injection h with h2
      subst h2
      by_cases h3 : Date.leb d f = true
      · rw [if_pos h3]
        exact List.mem_cons_self d rest
      · rw [if_neg h3]
        exact List.mem_cons_of_mem d (ih h1)

theorem maxDateOf_mem : ∀ {l : List Date} {e : Date}, maxDateOf l = some e → e ∈ l := by
  intro l
  induction l with
  | nil => intro e h; cases h
  | cons d rest ih =>
    intro e h
    cases h1 : maxDateOf rest with
    | none =>
      rw [maxDateOf_cons_none h1] at h
      injection h with h2
      subst h2
      exact List.mem_cons_self d rest
    | some f =>
      rw [maxDateOf_cons_some h1] at h
      injection h with h2
      subst h2
      by_cases h3 : Date.leb d f = true
      · rw [if_pos h3]
        exact List.mem_cons_of_mem d (ih h1)
      · rw [if_neg h3]
        exact List.mem_cons_self d rest

theorem sorted_minDateOf_eq_head {l : List Date}
    (h : List.Pairwise (fun a b : Date => a < b) l) :
    minDateOf l = l.head? := by
  cases l with
  | nil => rfl
  | cons d rest =>
    cases h1 : minDateOf rest with
    | none => rw [minDateOf_cons_none h1]; rfl
    | some e =>
      rw [minDateOf_cons_some h1]
      have he : e ∈ rest := minDateOf_mem h1
      have hde : d ≤ e := Date.le_of_lt ((List.pairwise_cons.mp h).1 e he)
      rw [if_pos (show Date.leb d e = true from hde)]
      rfl

theorem maxDateOf_cons_isSome (d : Date) (rest : List Date) :
    ∃ e, maxDateOf (d :: rest) = some e := by
  cases h1 : maxDateOf rest with
  | none => exact ⟨d, maxDateOf_cons_none h1⟩
  | some f => exact ⟨if Date.leb d f then f else d, maxDateOf_cons_some h1⟩

theorem sorted_maxDateOf_eq_getLast {l : List Date}
    (h : List.Pairwise (fun a b : Date => a < b) l) :
    maxDateOf l = l.getLast? := by
  induction l with
  | nil => rfl
  | cons d rest ih =>
    cases rest with
    | nil => rfl
    | cons r rs =>
      rcases List.pairwise_cons.mp h with ⟨hd, htail⟩
      rcases maxDateOf_cons_isSome r rs with ⟨e, he⟩
      rw [maxDateOf_cons_some he]
      have hmem : e ∈ r :: rs := maxDateOf_mem he
      have hde : d ≤ e := Date.le_of_lt (hd e hmem)
      rw [if_pos (show Date.leb d e = true from hde), List.getLast?_cons_cons,
        ← ih htail, he]

theorem sortedPick_head {px : List (Date × Rat)} (hs : SortedSeries px)
    (lo hi : Date) :
    minDateOf ((px.map Prod.fst).filter fun d => Date.leb lo d && Date.leb d hi) =
      Option.map Prod.fst
        ((px.filter fun p => Date.leb lo p.1 && Date.leb p.1 hi).head?) := by
  have hpred : ((fun d => Date.leb lo d && Date.leb d hi) ∘ Prod.fst)
      = (fun p : Date × Rat => Date.leb lo p.1 && Date.leb p.1 hi) := rfl
  have hsorted : List.Pairwise (fun a b : Date => a < b)
      ((px.filter fun p => Date.leb lo p.1 && Date.leb p.1 hi).map Prod.fst) :=
    List.pairwise_map.mpr (List.Pairwise.filter _ hs)
  rw [List.filter_map, hpred, sorted_minDateOf_eq_head hsorted, List.head?_map]

theorem sortedPick_last {px : List (Date × Rat)} (hs : SortedSeries px)
    (lo hi : Date) :
    maxDateOf ((px.map Prod.fst).filter fun d => Date.leb lo d && Date.leb d hi) =
      Option.map Prod.fst
        ((px.filter fun p => Date.leb lo p.1 && Date.leb p.1 hi).getLast?) := by
  have hpred : ((fun d => Date.leb lo d && Date.leb d hi) ∘ Prod.fst)
      = (fun p : Date × Rat => Date.leb lo p.1 && Date.leb p.1 hi) := rfl
  have hsorted : List.Pairwise (fun a b : Date => a < b)
      ((px.filter fun p => Date.leb lo p.1 && Date.leb p.1 hi).map Prod.fst) :=
    List.pairwise_map.mpr (List.Pairwise.filter _ hs)
  rw [List.filter_map, hpred, sorted_maxDateOf_eq_getLast hsorted,
    List.getLast?_map]

theorem resolveMonth_eq_specResolve {px : List (Date × Rat)}
    (hs : SortedSeries px) (diaD y m : Nat) :
    resolveMonth px diaD y m = specResolve (px.map Prod.fst) diaD y m := by
  rw [resolveMonth_def, specResolve_def]
  by_cases hmem : (⟨y, m, min diaD 28⟩ : Date) ∈ px.map Prod.fst
  · rw [if_pos hmem, if_pos hmem]
  · rw [if_neg hmem, if_neg hmem,
      sortedPick_head hs ⟨y, m, min diaD 28⟩ ⟨y, m, daysInMonth y m⟩,
      sortedPick_last hs ⟨y, m, 1⟩ ⟨y, m, daysInMonth y m⟩]
    cases h1 : (px.filter fun p => Date.leb ⟨y, m, min diaD 28⟩ p.1 &&
        Date.leb p.1 ⟨y, m, daysInMonth y m⟩).head? with
    | some p => rfl
    | none =>
      cases h2 : (px.filter fun p => Date.leb ⟨y, m, 1⟩ p.1 &&
          Date.leb p.1 ⟨y, m, daysInMonth y m⟩).getLast? with
      | some p => rfl
      | none => rfl

theorem lastAtOrBefore_none : ∀ {s : List (Date × Rat)} {d : Date},
    (∀ q ∈ s, ¬ q.1 ≤ d) → lastAtOrBefore s d = none := by
  intro s
  induction s with
  | nil => intro d _; rfl
  | cons p rest ih =>
    intro d h
    rw [lastAtOrBefore,
      if_neg (show ¬ Date.leb p.1 d = true from h p (List.mem_cons_self p rest))]
    exact ih fun q hq => h q (List.mem_cons_of_mem p hq)

theorem lastAtOrBefore_eq : ∀ {s : List (Date × Rat)}, SortedSeries s →
    ∀ {d : Date} {q : Date × Rat}, q ∈ s → q.1 ≤ d →
    (∀ r ∈ s, r.1 ≤ d → r.1 ≤ q.1) → lastAtOrBefore s d = some q.2 := by
  intro s
  induction s with
  | nil => intro _ d q hq; cases hq
  | cons p rest ih =>
    intro hs d q hq hqd hmax
    rcases List.pairwise_cons.mp hs with ⟨hp, htail⟩
    rcases List.mem_cons.mp hq with rfl | hq2
    · have hnone : lastAtOrBefore rest d = none := by
        apply lastAtOrBefore_none
        intro r hr hrd
        have h1 : q.1 < r.1 := hp r hr
        have h2 : r.1 ≤ q.1 := hmax r (List.mem_cons_of_mem q hr) hrd
        exact absurd h1 (Date.not_lt_of_le h2)
      rw [lastAtOrBefore, if_pos (show Date.leb q.1 d = true from hqd), hnone]
    · have hpd : p.1 ≤ d :=
        Date.le_of_lt (Date.lt_of_lt_of_le (hp q hq2) hqd)
      have hrec : lastAtOrBefore rest d = some q.2 :=
        ih htail hq2 hqd fun r hr hrd => hmax r (List.mem_cons_of_mem p hr) hrd
      rw [lastAtOrBefore, if_pos (show Date.leb p.1 d = true from hpd), hrec]

theorem composite_lookup {sa sb : List (Date × Rat)} {d : Date} {x yv : Rat}
    (hd : d ∈ unionDates sa sb)
    (ha : lastAtOrBefore sa d = some x)
    (hb : lastAtOrBefore sb d = some yv) :
    lookupPrice (composite sa sb) d = some (x * yv) := by
  have hmem : (d, x * yv) ∈ composite sa sb := by
    rw [composite, List.mem_filterMap]
    exact ⟨d, hd, by rw [ha, hb]⟩
  have hall : ∀ p ∈ composite sa sb, p.1 = d → p.2 = x * yv := by
    intro p hp hpd
    rw [composite, List.mem_filterMap] at hp
    rcases hp with ⟨e, _, hfe⟩
    split at hfe
    · next x2 y2 h1 h2 =>
      injection hfe with h3
      subst h3
      have hed : e = d := hpd
      subst hed
      rw [ha] at h1
      rw [hb] at h2
      injection h1 with h1
      injection h2 with h2
      rw [← h1, ← h2]
    · next => cases hfe
  unfold lookupPrice
  cases hf : (composite sa sb).find? fun p => decide (p.1 = d) with
  | none =>
    have hsome : ((composite sa sb).find? fun p => decide (p.1 = d)).isSome = true := by
      rw [List.find?_isSome]
      exact ⟨(d, x * yv), hmem, by simp⟩
    rw [hf] at hsome
    cases hsome
  | some q =>
    have hq1 : q.1 = d := by simpa using List.find?_some hf
    have hq2 : q ∈ composite sa sb := List.mem_of_find?_eq_some hf
    have : q.2 = x * yv := hall q hq2 hq1
    rw [Option.map_some', this]

theorem mem_unionDates_left {sa sb : List (Date × Rat)} {d : Date}
    (h : d ∈ sa.map Prod.fst) : d ∈ unionDates sa sb := by
  unfold unionDates
  rw [mem_dedupSort, List.mem_append]
  exact Or.inl h

theorem simulate_degenerate {px : List (Date × Rat)} {diaD : Nat} {a : Rat}
    {y1 m1 y2 m2 : Nat} {p : Date × Rat}
    (hlast : px.getLast? = some p)
    (hnone : ∀ ym ∈ monthsRange y1 m1 y2 m2, resolveMonth px diaD ym.1 ym.2 = none) :
    simulate px diaD a y1 m1 y2 m2 = some [Event.mk p.1 p.2 0 0 0 0 0 0 0 none] := by
  have hED : execDates px diaD y1 m1 y2 m2 = [] := by
    unfold execDates
    have h1 : (monthsRange y1 m1 y2 m2).filterMap
        (fun ym => resolveMonth px diaD ym.1 ym.2) = [] := by
      rw [List.filterMap_eq_nil_iff]
      exact hnone
    rw [h1]
    rfl
  unfold simulate
  rw [hED, simAux_nil, hlast]

theorem pairwise_data_inj {l : List Event}
    (h : List.Pairwise (fun e1 e2 : Event => e1.data < e2.data) l) :
    ∀ e1 ∈ l, ∀ e2 ∈ l, e1.data = e2.data → e1 = e2 := by
  induction l with
  | nil => intro e1 he1; cases he1
  | cons x xs ih =>
    rcases List.pairwise_cons.mp h with ⟨hx, hxs⟩
    intro e1 he1 e2 he2 heq
    rcases List.mem_cons.mp he1 with h1 | h1
    · rcases List.mem_cons.mp he2 with h2 | h2
      · rw [h1, h2]
      · have h3 := hx e2 h2
        rw [← h1, heq] at h3
        exact absurd h3 (Date.lt_irrefl e2.data)
    · rcases List.mem_cons.mp he2 with h2 | h2
      · have h3 := hx e1 h1
        rw [← h2, ← heq] at h3
        exact absurd h3 (Date.lt_irrefl e1.data)
      · exact ih hxs e1 h1 e2 h2 heq

/-- The three-point series of the spec's end-to-end example. -/
def exPx : List (Date × Rat) :=
  [(⟨2023, 1, 3⟩, 100), (⟨2023, 1, 6⟩, 110), (⟨2023, 2, 3⟩, 120)]

/-- January row of the end-to-end example ledger. -/
def exEvent1 : Event :=
  Event.mk ⟨2023, 1, 6⟩ 110 1000 (100/11) (100/11) 1000 1000 0 0 (some 110)

/-- February row of the end-to-end example ledger. -/
def exEvent2 : Event :=
  Event.mk ⟨2023, 2, 3⟩ 120 1000 (25/3) (575/33) 2000 (23000/11) (1000/11)
    (50/11) (some (2640/23))

/-- A one-point series with unit price, used to instantiate theorems. -/
def wPx : List (Date × Rat) := [(⟨2023, 1, 5⟩, 1)]

/-- The single ledger row the unit-price series produces with a unit
contribution. -/
def wEvent : Event := Event.mk ⟨2023, 1, 5⟩ 1 1 1 1 1 1 0 0 (some 1)

/-- A two-point unit-price series spanning two months. -/
def wPx2 : List (Date × Rat) := [(⟨2023, 1, 5⟩, 1), (⟨2023, 2, 5⟩, 1)]

/-- C1: for every calendar month spanned by the simulation range, the
execution date produced by the source loop equals the spec's policy: the
target day (min(scheduleDay, 28)) when quoted, else the first series date
in [target, month end], else the latest series date within the month,
else no event for the month. -/
theorem claim1_resolution_policy (px : List (Date × Rat))
    (hs : SortedSeries px) (diaD y1 m1 y2 m2 : Nat) :
    ∀ ym ∈ monthsRange y1 m1 y2 m2,
      resolveMonth px diaD ym.1 ym.2 =
        specResolve (px.map Prod.fst) diaD ym.1 ym.2 :=
  fun ym _ => resolveMonth_eq_specResolve hs diaD ym.1 ym.2

theorem claim1_witness :
    resolveMonth exPx 5 2023 1 = specResolve (exPx.map Prod.fst) 5 2023 1 :=
  claim1_resolution_policy exPx (by unfold SortedSeries; decide) 5 2023 1 2023 2
    (2023, 1) (by decide)

/-- C2: with strictly positive prices (and a nonnegative contribution, as
the contract requires), every ledger row's running totals equal the sums
of unitsBought and of contribution over the rows up to and including it. -/
theorem claim2_cumulative_invariant (px : List (Date × Rat)) (diaD : Nat)
    (aporteMensal : Rat) (y1 m1 y2 m2 : Nat) (l : List Event)
    (hpos : ∀ p ∈ px, 0 < p.2) (ha : 0 ≤ aporteMensal)
    (hl : simulate px diaD aporteMensal y1 m1 y2 m2 = some l)
    (i : Nat) (hi : i < l.length) :
    (l.get ⟨i, hi⟩).btcCum = ((l.take (i+1)).map Event.qtyBtc).sum ∧
    (l.get ⟨i, hi⟩).brlInvestido = ((l.take (i+1)).map Event.aporte).sum := by
  rcases simulate_cases hl with ⟨hsim, _⟩ | ⟨_, p, hp, hfb⟩
  · have h := simAux_cumulative hpos ha hsim i hi
    rwa [zero_add, zero_add] at h
  · subst hfb
    simp only [List.length_cons, List.length_nil] at hi
    have hi0 : i = 0 := by omega
    subst hi0
    refine ⟨?_, ?_⟩ <;> simp

theorem claim2_witness :
    ((([wEvent] : List Event).get ⟨0, by decide⟩).btcCum =
      ((([wEvent] : List Event).take 1).map Event.qtyBtc).sum) ∧
    ((([wEvent] : List Event).get ⟨0, by decide⟩).brlInvestido =
      ((([wEvent] : List Event).take 1).map Event.aporte).sum) :=
  claim2_cumulative_invariant wPx 5 1 2023 1 2023 1 [wEvent] (by decide) (by decide)
    (by simp [simulate, simAux, execDates, resolveMonth, monthsRange, dedupSort,
      insertSorted, lookupPrice, daysInMonth, isLeap, Date.leb, Date.ltb, wPx,
      wEvent, List.filter, List.find?, List.range, List.filterMap,
      stepEvent, stepQty, stepBtcCum, stepBrlInv, stepPm])
    0 (by decide)

/-- C3 counterexample: on the spec's own example the simulator produces
the two stated rows, but the final average cost is 2640/23 = 114.7826...,
which is not 114.74 to the stated two-decimal precision (it differs by
more than 1/25). -/
theorem claim3_counterexample :
    simulate exPx 5 1000 2023 1 2023 2 = some [exEvent1, exEvent2] ∧
    exEvent2.pm = some (2640/23) ∧
    ¬ ((2640/23 : Rat) - 11474/100 ≤ 1/25 ∧ (11474/100 : Rat) - 2640/23 ≤ 1/25) := by
  refine ⟨?_, rfl, by norm_num⟩
  norm_num [simulate, simAux, execDates, resolveMonth, monthsRange, dedupSort,
    insertSorted, lookupPrice, daysInMonth, isLeap, Date.leb, Date.ltb, exPx,
    exEvent1, exEvent2, List.filter, List.find?, List.range, List.filterMap,
    stepEvent, stepQty, stepBtcCum, stepBrlInv, stepPm, Event.mk.injEq]

/-- C3 amended: the example input yields exactly the two stated events —
January executes on 2023-01-06 with 1000/110 = 100/11 units, February on
2023-02-03 with 1000/120 = 25/3 units, final cumulative units 575/33 =
17.4242..., cumulative contribution 2000 — and the final average cost is
2000/(575/33) = 2640/23 ≈ 114.78 (not 114.74). -/
theorem claim3_end_to_end :
    simulate exPx 5 1000 2023 1 2023 2 = some [exEvent1, exEvent2] ∧
    exEvent1.data = ⟨2023, 1, 6⟩ ∧ exEvent1.qtyBtc = 100/11 ∧
    exEvent2.data = ⟨2023, 2, 3⟩ ∧ exEvent2.qtyBtc = 25/3 ∧
    exEvent2.btcCum = 575/33 ∧ exEvent2.brlInvestido = 2000 ∧
    exEvent2.pm = some (2640/23) ∧
    ((2640/23 : Rat) - 11478/100 ≤ 1/100 ∧ (11478/100 : Rat) - 2640/23 ≤ 1/100) := by
  refine ⟨?_, rfl, rfl, rfl, rfl, rfl, rfl, rfl, by norm_num⟩
  norm_num [simulate, simAux, execDates, resolveMonth, monthsRange, dedupSort,
    insertSorted, lookupPrice, daysInMonth, isLeap, Date.leb, Date.ltb, exPx,
    exEvent1, exEvent2, List.filter, List.find?, List.range, List.filterMap,
    stepEvent, stepQty, stepBtcCum, stepBrlInv, stepPm, Event.mk.injEq]

/-- Asset leg of the gap-fill witness: one quote on 2023-01-02. -/
def wAssetA : List (Date × Rat) := [(⟨2023, 1, 2⟩, 3)]

/-- Exchange-rate leg of the gap-fill witness: one quote on 2023-01-01,
missing on 2023-01-02. -/
def wRateB : List (Date × Rat) := [(⟨2023, 1, 1⟩, 5)]

/-- C4: on a composite-series date where the exchange-rate input is
missing but some strictly earlier date carries a rate, the composite
price is the forward-filled asset price times the most recent prior
exchange rate. -/
theorem claim4_gap_fill (sa sb : List (Date × Rat)) (d : Date)
    (q : Date × Rat) (x : Rat) (hsb : SortedSeries sb)
    (hd : d ∈ sa.map Prod.fst) (hmiss : d ∉ sb.map Prod.fst)
    (hq : q ∈ sb) (hlt : q.1 < d)
    (hrecent : ∀ r ∈ sb, r.1 < d → r.1 ≤ q.1)
    (hx : lastAtOrBefore sa d = some x) :
    lookupPrice (composite sa sb) d = some (x * q.2) := by
  have hb : lastAtOrBefore sb d = some q.2 := by
    apply lastAtOrBefore_eq hsb hq (Date.le_of_lt hlt)
    intro r hr hrd
    rcases Date.lt_or_eq_of_le hrd with h1 | h1
    · exact hrecent r hr h1
    · exact absurd (List.mem_map.mpr ⟨r, hr, h1⟩) hmiss
  exact composite_lookup (mem_unionDates_left hd) hx hb

theorem claim4_witness :
    lookupPrice (composite wAssetA wRateB) ⟨2023, 1, 2⟩ = some (3 * 5) :=
  claim4_gap_fill wAssetA wRateB ⟨2023, 1, 2⟩ (⟨2023, 1, 1⟩, 5) 3
    (by unfold SortedSeries; decide) (by decide) (by decide) (by decide)
    (by decide) (by decide) (by decide)

/-- Raw frame with an adjusted-close column present. -/
def wAdjFrame : RawFrame := RawFrame.mk false (some [(⟨2023, 1, 5⟩, some 1)]) none

/-- Raw frame that is empty: the download returned no rows. -/
def wEmptyFrame : RawFrame := RawFrame.mk true none none

/-- Raw frame whose selected column has no rows, so the composite series
comes out empty. -/
def wNilFrame : RawFrame := RawFrame.mk false (some []) none

/-- C5: the normalizer picks the adjusted-close column when present, else
the close column; it fails with the data-unavailable error when the frame
is empty or has neither column, fails with the empty-result error when
the cleaned composite has no rows, and on any such failure the pipeline
stops before producing a ledger. -/
theorem claim5_normalizer_errors (r ra rb : RawFrame) (diaD : Nat)
    (aporteMensal : Rat) (y1 m1 y2 m2 : Nat) :
    (∀ col, r.isEmpty = false → r.adjClose = some col →
      downloadSingle r = Except.ok (cleanSeries col)) ∧
    (∀ col, r.isEmpty = false → r.adjClose = none → r.close = some col →
      downloadSingle r = Except.ok (cleanSeries col)) ∧
    (r.isEmpty = true → downloadSingle r = Except.error NormError.dataUnavailable) ∧
    (r.adjClose = none → r.close = none →
      downloadSingle r = Except.error NormError.dataUnavailable) ∧
    (∀ sa sb, downloadSingle ra = Except.ok sa → downloadSingle rb = Except.ok sb →
      composite sa sb = [] → loadSeries ra rb = Except.error NormError.emptyResult) ∧
    (∀ e, loadSeries ra rb = Except.error e →
      pipeline ra rb diaD aporteMensal y1 m1 y2 m2 = Except.error e) := by
  refine ⟨?_, ?_, ?_, ?_, ?_, ?_⟩
  · intro col h1 h2
    unfold downloadSingle
    rw [if_neg (by rw [h1]; simp), h2]
  · intro col h1 h2 h3
    unfold downloadSingle
    rw [if_neg (by rw [h1]; simp), h2, h3]
  · intro h1
    unfold downloadSingle
    rw [if_pos h1]
  · intro h1 h2
    unfold downloadSingle
    by_cases h3 : r.isEmpty = true
    · rw [if_pos h3]
    · rw [if_neg h3, h1, h2]
  · intro sa sb h1 h2 h3
    unfold loadSeries
    simp only [h1, h2]
    rw [h3]
    simp
  · intro e h1
    unfold pipeline
    rw [h1]

theorem claim5_witness :
    downloadSingle wAdjFrame = Except.ok (cleanSeries [(⟨2023, 1, 5⟩, some 1)]) ∧
    downloadSingle wEmptyFrame = Except.error NormError.dataUnavailable ∧
    pipeline wNilFrame wNilFrame 5 1 2023 1 2023 1 =
      Except.error NormError.emptyResult := by
  refine ⟨(claim5_normalizer_errors wAdjFrame wNilFrame wNilFrame 5 1 2023 1 2023 1).1
      [(⟨2023, 1, 5⟩, some 1)] rfl rfl,
    (claim5_normalizer_errors wEmptyFrame wNilFrame wNilFrame 5 1 2023 1 2023 1).2.2.1 rfl,
    ?_⟩
  exact (claim5_normalizer_errors wNilFrame wNilFrame wNilFrame 5 1 2023 1 2023 1).2.2.2.2.2
    NormError.emptyResult
    ((claim5_normalizer_errors wNilFrame wNilFrame wNilFrame 5 1 2023 1 2023 1).2.2.2.2.1
      [] [] rfl rfl rfl)

/-- C6: when no month of the range resolves to an execution date, the
simulator returns exactly one synthetic as-of row at the last series
date, with zero contribution, units, totals, market value, pnl and roi,
and an undefined average cost. -/
theorem claim6_degenerate_ledger (px : List (Date × Rat)) (diaD : Nat)
    (aporteMensal : Rat) (y1 m1 y2 m2 : Nat) (p : Date × Rat)
    (hlast : px.getLast? = some p)
    (hnone : ∀ ym ∈ monthsRange y1 m1 y2 m2, resolveMonth px diaD ym.1 ym.2 = none) :
    simulate px diaD aporteMensal y1 m1 y2 m2 =
      some [Event.mk p.1 p.2 0 0 0 0 0 0 0 none] :=
  simulate_degenerate hlast hnone

theorem claim6_witness :
    simulate wPx 5 1000 2024 1 2024 1 =
      some [Event.mk ⟨2023, 1, 5⟩ 1 0 0 0 0 0 0 0 none] :=
  claim6_degenerate_ledger wPx 5 1000 2024 1 2024 1 (⟨2023, 1, 5⟩, 1)
    (by decide) (by decide)

/-- C7: ledger event dates are strictly increasing (hence duplicate-free)
with at most one event per calendar month, and the execution dates the
recurrence runs over are exactly the resolved months' dates, deduplicated
and sorted ascending. -/
theorem claim7_ledger_order (px : List (Date × Rat)) (diaD : Nat)
    (aporteMensal : Rat) (y1 m1 y2 m2 : Nat) (l : List Event)
    (hl : simulate px diaD aporteMensal y1 m1 y2 m2 = some l) :
    List.Pairwise (fun e1 e2 : Event => e1.data < e2.data) l ∧
    (∀ e1 ∈ l, ∀ e2 ∈ l, e1.data.year = e2.data.year →
      e1.data.month = e2.data.month → e1 = e2) ∧
    List.Pairwise (fun a b : Date => a < b) (execDates px diaD y1 m1 y2 m2) ∧
    (∀ d, d ∈ execDates px diaD y1 m1 y2 m2 ↔
      ∃ ym ∈ monthsRange y1 m1 y2 m2, resolveMonth px diaD ym.1 ym.2 = some d) := by
  have hpwE : List.Pairwise (fun a b : Date => a < b)
      (execDates px diaD y1 m1 y2 m2) := by
    unfold execDates
    exact pairwise_dedupSort _
  rcases simulate_cases hl with ⟨hsim, _⟩ | ⟨_, p, hp, hfb⟩
  · have hmap : l.map Event.data = execDates px diaD y1 m1 y2 m2 :=
      simAux_map_data hsim
    have hpwL : List.Pairwise (fun e1 e2 : Event => e1.data < e2.data) l := by
      apply List.pairwise_map.mp
      rw [hmap]
      exact hpwE
    refine ⟨hpwL, ?_, hpwE, fun d => mem_execDates_iff⟩
    intro e1 he1 e2 he2 hy hm
    have hd1 : e1.data ∈ execDates px diaD y1 m1 y2 m2 := by
      rw [← hmap]
      exact List.mem_map_of_mem Event.data he1
    have hd2 : e2.data ∈ execDates px diaD y1 m1 y2 m2 := by
      rw [← hmap]
      exact List.mem_map_of_mem Event.data he2
    have hr1 : resolveMonth px diaD e1.data.year e1.data.month = some e1.data := by
      rcases mem_execDates_iff.mp hd1 with ⟨ym, _, hres⟩
      rcases resolveMonth_props hres with ⟨_, hyy, hmm2⟩
      rw [hyy, hmm2]
      exact hres
    have hr2 : resolveMonth px diaD e2.data.year e2.data.month = some e2.data := by
      rcases mem_execDates_iff.mp hd2 with ⟨ym, _, hres⟩
      rcases resolveMonth_props hres with ⟨_, hyy, hmm2⟩
      rw [hyy, hmm2]
      exact hres
    rw [hy, hm, hr2] at hr1
    injection hr1 with hr1
    exact pairwise_data_inj hpwL e1 he1 e2 he2 hr1.symm
  · subst hfb
    refine ⟨List.pairwise_singleton _ _, ?_, hpwE, fun d => mem_execDates_iff⟩
    intro e1 he1 e2 he2 _ _
    simp only [List.mem_singleton] at he1 he2
    rw [he1, he2]

theorem claim7_witness :
    List.Pairwise (fun e1 e2 : Event => e1.data < e2.data) [wEvent] ∧
    List.Pairwise (fun a b : Date => a < b) (execDates wPx 5 2023 1 2023 1) :=
  ⟨(claim7_ledger_order wPx 5 1 2023 1 2023 1 [wEvent]
      (by simp [simulate, simAux, execDates, resolveMonth, monthsRange, dedupSort,
        insertSorted, lookupPrice, daysInMonth, isLeap, Date.leb, Date.ltb, wPx,
        wEvent, List.filter, List.find?, List.range, List.filterMap,
        stepEvent, stepQty, stepBtcCum, stepBrlInv, stepPm])).1,
   (claim7_ledger_order wPx 5 1 2023 1 2023 1 [wEvent]
      (by simp [simulate, simAux, execDates, resolveMonth, monthsRange, dedupSort,
        insertSorted, lookupPrice, daysInMonth, isLeap, Date.leb, Date.ltb, wPx,
        wEvent, List.filter, List.find?, List.range, List.filterMap,
        stepEvent, stepQty, stepBtcCum, stepBrlInv, stepPm])).2.2.1⟩

/-- C8: for a non-empty series, a schedule day in 1..28 and a nonnegative
contribution, every resolved execution date carries a price of the series
and the simulator always returns a ledger: it never fails. -/
theorem claim8_never_fails (px : List (Date × Rat)) (diaD : Nat)
    (aporteMensal : Rat) (y1 m1 y2 m2 : Nat) (hne : px ≠ [])
    (hdia1 : 1 ≤ diaD) (hdia2 : diaD ≤ 28) (ha : 0 ≤ aporteMensal) :
    (∀ d ∈ execDates px diaD y1 m1 y2 m2, ∃ p ∈ px, p.1 = d) ∧
    ∃ l, simulate px diaD aporteMensal y1 m1 y2 m2 = some l := by
  refine ⟨fun d hd => execDates_mem_px hd, ?_⟩
  rcases simAux_total 0 0 (fun d hd => execDates_mem_px hd) with ⟨l, hl⟩
  unfold simulate
  rw [hl]
  cases l with
  | nil =>
    cases hg : px.getLast? with
    | none => exact absurd (List.getLast?_eq_none_iff.mp hg) hne
    | some p => exact ⟨_, rfl⟩
  | cons e rest => exact ⟨_, rfl⟩

theorem claim8_witness :
    (∃ p ∈ wPx, p.1 = (⟨2023, 1, 5⟩ : Date)) ∧
    ∃ l, simulate wPx 5 1 2023 1 2023 1 = some l :=
  ⟨(claim8_never_fails wPx 5 1 2023 1 2023 1 (by decide) (by decide)
      (by decide) (by decide)).1 ⟨2023, 1, 5⟩ (by decide),
   (claim8_never_fails wPx 5 1 2023 1 2023 1 (by decide) (by decide)
      (by decide) (by decide)).2⟩

/-- C9: with a zero monthly contribution, every row of the resulting
ledger has zero units bought, zero cumulative units, zero pnl and zero
roi, over any price series. -/
theorem claim9_zero_contribution (px : List (Date × Rat)) (diaD : Nat)
    (y1 m1 y2 m2 : Nat) (l : List Event)
    (hl : simulate px diaD 0 y1 m1 y2 m2 = some l) :
    ∀ e ∈ l, e.qtyBtc = 0 ∧ e.btcCum = 0 ∧ e.pnl = 0 ∧ e.roi = 0 := by
  rcases simulate_cases hl with ⟨hsim, _⟩ | ⟨_, p, hp, hfb⟩
  · exact simAux_zero hsim
  · subst hfb
    intro e he
    simp only [List.mem_singleton] at he
    subst he
    exact ⟨rfl, rfl, rfl, rfl⟩

theorem claim9_witness :
    (Event.mk (⟨2023, 1, 5⟩ : Date) 1 0 0 0 0 0 0 0 none).qtyBtc = 0 ∧
    (Event.mk (⟨2023, 1, 5⟩ : Date) 1 0 0 0 0 0 0 0 none).btcCum = 0 ∧
    (Event.mk (⟨2023, 1, 5⟩ : Date) 1 0 0 0 0 0 0 0 none).pnl = 0 ∧
    (Event.mk (⟨2023, 1, 5⟩ : Date) 1 0 0 0 0 0 0 0 none).roi = 0 :=
  claim9_zero_contribution wPx 5 2023 1 2023 1
    [Event.mk ⟨2023, 1, 5⟩ 1 0 0 0 0 0 0 0 none]
    (by simp [simulate, simAux, execDates, resolveMonth, monthsRange, dedupSort,
      insertSorted, lookupPrice, daysInMonth, isLeap, Date.leb, Date.ltb, wPx,
      List.filter, List.find?, List.range, List.filterMap,
      stepEvent, stepQty, stepBtcCum, stepBrlInv, stepPm])
    (Event.mk ⟨2023, 1, 5⟩ 1 0 0 0 0 0 0 0 none) (by decide)

/-- C10: along any ledger the running totals never decrease: each event's
cumulative units and cumulative contribution are at least the previous
event's. -/
theorem claim10_monotone_totals (px : List (Date × Rat)) (diaD : Nat)
    (aporteMensal : Rat) (y1 m1 y2 m2 : Nat) (l : List Event)
    (hl : simulate px diaD aporteMensal y1 m1 y2 m2 = some l) :
    List.Chain' (fun e1 e2 : Event =>
      e1.btcCum ≤ e2.btcCum ∧ e1.brlInvestido ≤ e2.brlInvestido) l := by
  rcases simulate_cases hl with ⟨hsim, _⟩ | ⟨_, p, hp, hfb⟩
  · exact (simAux_chain hsim).1
  · subst hfb
    exact List.chain'_singleton _

theorem claim10_witness :
    List.Chain' (fun e1 e2 : Event =>
      e1.btcCum ≤ e2.btcCum ∧ e1.brlInvestido ≤ e2.brlInvestido)
      [Event.mk ⟨2023, 1, 5⟩ 1 1 1 1 1 1 0 0 (some 1),
       Event.mk ⟨2023, 2, 5⟩ 1 1 1 2 2 2 0 0 (some 1)] :=
  claim10_monotone_totals wPx2 5 1 2023 1 2023 2
    [Event.mk ⟨2023, 1, 5⟩ 1 1 1 1 1 1 0 0 (some 1),
     Event.mk ⟨2023, 2, 5⟩ 1 1 1 2 2 2 0 0 (some 1)]
    (by norm_num [simulate, simAux, execDates, resolveMonth, monthsRange, dedupSort,
      insertSorted, lookupPrice, daysInMonth, isLeap, Date.leb, Date.ltb, wPx2,
      List.filter, List.find?, List.range, List.filterMap,
      stepEvent, stepQty, stepBtcCum, stepBrlInv, stepPm, Event.mk.injEq])

end DCA
